import Mathlib

/-!
Shallow embedding of the Tic-Tac-Toe decision logic from
`src/components/TicTacToe.tsx`: the Rules Engine (`checkWinner`,
`isBoardFull`, `getAvailableMoves`), the Opponent Strategy
(`getComputerMove`), and the Game Session Controller
(`handleCellClick`, `resetScore`, the initial state).

Modelling conventions:
* A cell holds `Option Mark` (`none` models the TS `null`).
* A board is a `List Cell`; JS array reads `board[i]` that may fall out
  of range are modelled with `List.get?` (so `get? i = some none` says
  "index in range and the cell is empty", matching the JS guard
  `board[index] !== null`, which also rejects `undefined`), and reads at
  indices known to be in range are modelled with `List.getD · none`.
* `Math.floor(Math.random() * len)` produces an arbitrary natural below
  `len`; we model each random draw by an externally supplied natural
  `r` reduced as `r % len`, which ranges over exactly the same outcomes.
-/

namespace TicTacToe

inductive Mark where
  | X
  | O
deriving DecidableEq, Repr

/-- TS `Player = 'X' | 'O' | null`. -/
abbrev Cell := Option Mark

inductive GameStatus where
  | playing
  | won
  | draw
deriving DecidableEq, Repr

inductive GameMode where
  | player
  | computer
deriving DecidableEq, Repr

structure Score where
  x : Nat
  o : Nat
  draws : Nat
deriving DecidableEq, Repr

structure GameState where
  board : List Cell
  currentPlayer : Cell
  gameStatus : GameStatus
  winner : Cell
  gameMode : GameMode
  score : Score
deriving DecidableEq, Repr

/-- The initial `useState` value: empty board, X to move, playing,
no winner, player-vs-player, zero score. -/
def initialState : GameState :=
  { board := List.replicate 9 none
    currentPlayer := some Mark.X
    gameStatus := GameStatus.playing
    winner := none
    gameMode := GameMode.player
    score := { x := 0, o := 0, draws := 0 } }

/-- The 8 winning triples, in the source's order:
3 rows, 3 columns, 2 diagonals. -/
def winningCombinations : List (Nat × Nat × Nat) :=
  [(0, 1, 2), (3, 4, 5), (6, 7, 8),
   (0, 3, 6), (1, 4, 7), (2, 5, 8),
   (0, 4, 8), (2, 4, 6)]

/-- One iteration of the `checkWinner` loop body: the mark winning on
triple `t`, if any (`board[a] && board[a] === board[b] && board[a] === board[c]`). -/
def comboWinner (board : List Cell) (t : Nat × Nat × Nat) : Option Mark :=
  match t with
  | (a, b, c) =>
    if (board.getD a none).isSome ∧ board.getD a none = board.getD b none ∧
        board.getD a none = board.getD c none then
      board.getD a none
    else none

/-- Function `checkWinner`: scan the 8 triples in order, return the mark of the
first fully matched one, else `null`. -/
def checkWinner (board : List Cell) : Cell :=
  winningCombinations.findSome? (comboWinner board)

/-- Function `isBoardFull`: `board.every(cell => cell !== null)`. -/
def isBoardFull (board : List Cell) : Bool :=
  board.all (fun cell => cell.isSome)

/-- Function `getAvailableMoves`: map each cell to its index when empty else
`null`, then filter out the `null`s. -/
def getAvailableMoves (board : List Cell) : List Nat :=
  (board.enum.map (fun p => if p.2 = none then some p.1 else none)).filterMap id

/-- One iteration of a win/block scan in `getComputerMove`: the three
`if` lines testing whether mark `m` holds two cells of triple `t` with
the remaining cell empty, returning that remaining index. -/
def completeMove (board : List Cell) (m : Mark) (t : Nat × Nat × Nat) : Option Nat :=
  match t with
  | (a, b, c) =>
    if board.getD a none = some m ∧ board.getD b none = some m ∧ board.getD c none = none then
      some c
    else if board.getD a none = some m ∧ board.getD c none = some m ∧ board.getD b none = none then
      some b
    else if board.getD b none = some m ∧ board.getD c none = some m ∧ board.getD a none = none then
      some a
    else none

/-- The win tier (for `m = O`) and block tier (for `m = X`) of
`getComputerMove`: first triple in order that mark `m` can complete. -/
def findCompletingMove (board : List Cell) (m : Mark) : Option Nat :=
  winningCombinations.findSome? (completeMove board m)

/-- Function `getComputerMove`: win, block, center, random corner, random
remaining cell. `r1`, `r2` supply the two random draws. -/
def getComputerMove (board : List Cell) (r1 r2 : Nat) : Nat :=
  match findCompletingMove board Mark.O with
  | some i => i
  | none =>
    match findCompletingMove board Mark.X with
    | some i => i
    | none =>
      if board.getD 4 none = none then 4
      else
        let availableCorners := [0, 2, 6, 8].filter (fun c => board.getD c none = none)
        if availableCorners.length > 0 then
          availableCorners.getD (r1 % availableCorners.length) 9
        else
          let availableMoves := getAvailableMoves board
          availableMoves.getD (r2 % availableMoves.length) 9

/-- The turn flip `currentPlayer === 'X' ? 'O' : 'X'`. -/
def flipPlayer (p : Cell) : Cell :=
  if p = some Mark.X then some Mark.O else some Mark.X

/-- The body of `handleCellClick` past the guard: place the current
mark, derive the new status, winner and score, and flip the turn. -/
def applyMove (s : GameState) (index : Nat) : GameState :=
  let newBoard := s.board.set index s.currentPlayer
  let winner := checkWinner newBoard
  let newGameStatus : GameStatus :=
    match winner with
    | some _ => GameStatus.won
    | none => if isBoardFull newBoard then GameStatus.draw else GameStatus.playing
  let newScore : Score :=
    match winner with
    | some Mark.X => { s.score with x := s.score.x + 1 }
    | some Mark.O => { s.score with o := s.score.o + 1 }
    | none =>
      if isBoardFull newBoard then { s.score with draws := s.score.draws + 1 }
      else s.score
  { s with
      board := newBoard
      currentPlayer := flipPlayer s.currentPlayer
      gameStatus := newGameStatus
      winner := winner
      score := newScore }

/-- Function `handleCellClick`: reject when the cell is not empty (including
out-of-range indices, where `board[index]` is `undefined !== null`) or
the game is over; otherwise apply the move. -/
def handleCellClick (s : GameState) (index : Nat) : GameState :=
  if s.board.get? index ≠ some none ∨ s.gameStatus ≠ GameStatus.playing then s
  else applyMove s index

/-- Function `resetScore`: zero the three counters, keep everything else. -/
def resetScore (s : GameState) : GameState :=
  { s with score := { x := 0, o := 0, draws := 0 } }

/-- Fold a sequence of move events through `handleCellClick`. -/
def playMoves (s : GameState) (moves : List Nat) : GameState :=
  moves.foldl handleCellClick s

/-- A move event is accepted when the session is in progress and the
target cell is in range and empty (the negation of the
`handleCellClick` guard). -/
def acceptedMove (s : GameState) (index : Nat) : Prop :=
  s.board.get? index = some none ∧ s.gameStatus = GameStatus.playing

instance (s : GameState) (index : Nat) : Decidable (acceptedMove s index) := by
  unfold acceptedMove; infer_instance

/-- Every move of the sequence is accepted in the state reached by the
moves before it. -/
def acceptedSeq : GameState → List Nat → Prop
  | _, [] => True
  | s, i :: rest => acceptedMove s i ∧ acceptedSeq (handleCellClick s i) rest

def acceptedSeqDec : (s : GameState) → (moves : List Nat) → Decidable (acceptedSeq s moves)
  | _, [] => isTrue trivial
  | s, i :: rest =>
    have : Decidable (acceptedSeq (handleCellClick s i) rest) :=
      acceptedSeqDec (handleCellClick s i) rest
    inferInstanceAs (Decidable (acceptedMove s i ∧ acceptedSeq (handleCellClick s i) rest))

instance (s : GameState) (moves : List Nat) : Decidable (acceptedSeq s moves) :=
  acceptedSeqDec s moves

/-- Mark `m` owns all three cells of triple `t` on `board`. -/
def ownsTriple (board : List Cell) (t : Nat × Nat × Nat) (m : Mark) : Prop :=
  board.getD t.1 none = some m ∧ board.getD t.2.1 none = some m ∧
    board.getD t.2.2 none = some m

instance (board : List Cell) (t : Nat × Nat × Nat) (m : Mark) :
    Decidable (ownsTriple board t m) := by
  unfold ownsTriple; infer_instance

/-- Mark `m` holds two cells of triple `t`, the third is empty, and `i`
is that third cell, as tested by the three scan lines in the win/block
tiers. -/
def completesTriple (board : List Cell) (m : Mark) (t : Nat × Nat × Nat) (i : Nat) : Prop :=
  match t with
  | (a, b, c) =>
    (board.getD a none = some m ∧ board.getD b none = some m ∧
      board.getD c none = none ∧ i = c) ∨
    (board.getD a none = some m ∧ board.getD c none = some m ∧
      board.getD b none = none ∧ i = b) ∨
    (board.getD b none = some m ∧ board.getD c none = some m ∧
      board.getD a none = none ∧ i = a)

instance (board : List Cell) (m : Mark) (t : Nat × Nat × Nat) (i : Nat) :
    Decidable (completesTriple board m t i) := by
  unfold completesTriple
  exact match t with
  | (a, b, c) => instDecidableOr

/-- Mark `m` can complete some winning triple in one move. -/
def canComplete (board : List Cell) (m : Mark) : Prop :=
  ∃ t ∈ winningCombinations, ∃ i, completesTriple board m t i

instance (board : List Cell) (m : Mark) : Decidable (canComplete board m) := by
  unfold canComplete
  have : ∀ t : Nat × Nat × Nat, Decidable (∃ i, completesTriple board m t i) := by
    intro t
    rcases t with ⟨a, b, c⟩
    by_cases h : completesTriple board m (a, b, c) a ∨
        completesTriple board m (a, b, c) b ∨ completesTriple board m (a, b, c) c
    · exact isTrue (by rcases h with h | h | h <;> exact ⟨_, h⟩)
    · refine isFalse ?_
      rintro ⟨i, hi⟩
      have hi' := hi
      rcases hi with ⟨_, _, _, h3⟩ | ⟨_, _, _, h3⟩ | ⟨_, _, _, h3⟩ <;> subst h3
      · exact h (Or.inr (Or.inr hi'))
      · exact h (Or.inr (Or.inl hi'))
      · exact h (Or.inl hi')
  exact List.decidableBEx _ winningCombinations

/-- Iterated turn flips, for stating strict alternation. -/
def flipIter : Nat → Cell → Cell
  | 0, p => p
  | k + 1, p => flipIter k (flipPlayer p)

/-- A session one move away from an X win: X on cells 0 and 1, O on
cells 3 and 4, X to move. -/
def nearWinState : GameState :=
  { initialState with
      board := [some Mark.X, some Mark.X, none, some Mark.O, some Mark.O,
        none, none, none, none] }

/-- A (not legally reachable) board where both X and O own a full row;
X's row comes first in the scan order. -/
def doubleRowBoard : List Cell :=
  [some Mark.X, some Mark.X, some Mark.X, some Mark.O, some Mark.O,
    some Mark.O, none, none, none]

/-- The spec's block scenario: X on cells 0 and 1, cell 2 empty, a lone
O in the center. -/
def blockScenarioBoard : List Cell :=
  [some Mark.X, some Mark.X, none, none, some Mark.O, none, none, none, none]

/-- The spec's "draw" scenario move sequence
0(A) 1(B) 2(A) 4(B) 3(A) 5(B) 6(A) 8(B) 7(A). -/
def drawScenarioMoves : List Nat := [0, 1, 2, 4, 3, 5, 6, 8, 7]

/-- The empty board. -/
def emptyBoard : List Cell := List.replicate 9 none

/-! ### Helper lemmas -/

lemma comboWinner_eq_some_iff (board : List Cell) (t : Nat × Nat × Nat) (m : Mark) :
    comboWinner board t = some m ↔ ownsTriple board t m := by
  rcases t with ⟨a, b, c⟩
  unfold comboWinner ownsTriple
  dsimp only
  split_ifs with hcond
  · rcases hcond with ⟨_, hab, hac⟩
    constructor
    · intro ha
      exact ⟨ha, hab ▸ ha, hac ▸ ha⟩
    · rintro ⟨ha, _, _⟩
      exact ha
  · constructor
    · rintro ⟨⟩
    · rintro ⟨ha, hb, hc⟩
      exact absurd ⟨by rw [ha]; rfl, by rw [ha, hb], by rw [ha, hc]⟩ hcond

lemma comboWinner_eq_none_iff (board : List Cell) (t : Nat × Nat × Nat) :
    comboWinner board t = none ↔ ∀ m, ¬ ownsTriple board t m := by
  constructor
  · intro h m hm
    rw [← comboWinner_eq_some_iff] at hm
    rw [h] at hm
    exact Option.noConfusion hm
  · intro h
    rcases hc : comboWinner board t with _ | m
    · rfl
    · exact absurd ((comboWinner_eq_some_iff board t m).mp hc) (h m)

lemma checkWinner_eq_some_imp (board : List Cell) (m : Mark)
    (h : checkWinner board = some m) :
    ∃ t ∈ winningCombinations, ownsTriple board t m := by
  obtain ⟨t, ht, hc⟩ := List.exists_of_findSome?_eq_some h
  exact ⟨t, ht, (comboWinner_eq_some_iff board t m).mp hc⟩

lemma checkWinner_eq_none_iff (board : List Cell) :
    checkWinner board = none ↔
      ∀ t ∈ winningCombinations, ∀ m, ¬ ownsTriple board t m := by
  unfold checkWinner
  rw [List.findSome?_eq_none_iff]
  constructor
  · intro h t ht
    exact (comboWinner_eq_none_iff board t).mp (h t ht)
  · intro h t ht
    exact (comboWinner_eq_none_iff board t).mpr (h t ht)

lemma checkWinner_first_match (board : List Cell)
    (l₁ l₂ : List (Nat × Nat × Nat)) (t : Nat × Nat × Nat) (m : Mark)
    (hsplit : winningCombinations = l₁ ++ t :: l₂)
    (hbefore : ∀ t' ∈ l₁, ∀ m', ¬ ownsTriple board t' m')
    (howns : ownsTriple board t m) :
    checkWinner board = some m := by
  unfold checkWinner
  rw [hsplit, List.findSome?_append]
  have h₁ : List.findSome? (comboWinner board) l₁ = none := by
    rw [List.findSome?_eq_none_iff]
    intro t' ht'
    exact (comboWinner_eq_none_iff board t').mpr (hbefore t' ht')
  rw [h₁, Option.none_or, List.findSome?_cons,
    (comboWinner_eq_some_iff board t m).mpr howns]

lemma handleCellClick_of_not_accepted (s : GameState) (index : Nat)
    (h : ¬ acceptedMove s index) : handleCellClick s index = s := by
  unfold handleCellClick
  rw [if_pos]
  exact not_and_or.mp h

lemma handleCellClick_of_accepted (s : GameState) (index : Nat)
    (h : acceptedMove s index) : handleCellClick s index = applyMove s index := by
  unfold handleCellClick
  rw [if_neg]
  push_neg
  exact h

lemma applyMove_board (s : GameState) (index : Nat) :
    (applyMove s index).board = s.board.set index s.currentPlayer := rfl

lemma applyMove_currentPlayer (s : GameState) (index : Nat) :
    (applyMove s index).currentPlayer = flipPlayer s.currentPlayer := rfl

lemma applyMove_winner (s : GameState) (index : Nat) :
    (applyMove s index).winner = checkWinner (s.board.set index s.currentPlayer) := rfl

lemma applyMove_gameMode (s : GameState) (index : Nat) :
    (applyMove s index).gameMode = s.gameMode := rfl

lemma applyMove_won (s : GameState) (index : Nat) (m : Mark)
    (hw : checkWinner (s.board.set index s.currentPlayer) = some m) :
    (applyMove s index).gameStatus = GameStatus.won ∧
      (applyMove s index).winner = some m ∧
      (applyMove s index).score =
        (match m with
         | Mark.X => { s.score with x := s.score.x + 1 }
         | Mark.O => { s.score with o := s.score.o + 1 }) := by
  unfold applyMove
  simp only [hw]
  refine ⟨trivial, trivial, ?_⟩
  cases m <;> rfl

lemma applyMove_draw (s : GameState) (index : Nat)
    (hw : checkWinner (s.board.set index s.currentPlayer) = none)
    (hf : isBoardFull (s.board.set index s.currentPlayer) = true) :
    (applyMove s index).gameStatus = GameStatus.draw ∧
      (applyMove s index).winner = none ∧
      (applyMove s index).score = { s.score with draws := s.score.draws + 1 } := by
  unfold applyMove
  simp only [hw, hf]
  exact ⟨rfl, trivial, rfl⟩

lemma applyMove_playing (s : GameState) (index : Nat)
    (hw : checkWinner (s.board.set index s.currentPlayer) = none)
    (hf : isBoardFull (s.board.set index s.currentPlayer) = false) :
    (applyMove s index).gameStatus = GameStatus.playing ∧
      (applyMove s index).winner = none ∧
      (applyMove s index).score = s.score := by
  unfold applyMove
  simp only [hw, hf]
  exact ⟨rfl, trivial, rfl⟩

lemma mem_getAvailableMoves (board : List Cell) (i : Nat) :
    i ∈ getAvailableMoves board ↔ board.get? i = some none := by
  unfold getAvailableMoves
  rw [List.mem_filterMap]
  constructor
  · rintro ⟨a, ha, hid⟩
    simp only [id_eq] at hid
    subst hid
    rw [List.mem_map] at ha
    obtain ⟨p, hp, hfp⟩ := ha
    rcases p with ⟨j, cell⟩
    dsimp only at hfp
    by_cases hc : cell = none
    · rw [if_pos hc] at hfp
      cases hfp
      subst hc
      rw [List.get?_eq_getElem?]
      exact List.mk_mem_enum_iff_getElem?.mp hp
    · rw [if_neg hc] at hfp
      exact absurd hfp (by simp)
  · intro h
    refine ⟨some i, ?_, rfl⟩
    rw [List.mem_map]
    refine ⟨(i, none), List.mk_mem_enum_iff_getElem?.mpr ?_, by simp⟩
    rw [← List.get?_eq_getElem?]
    exact h

lemma getAvailableMoves_eq_nil_iff (board : List Cell) :
    getAvailableMoves board = [] ↔ ∀ c ∈ board, c ≠ none := by
  constructor
  · intro h c hc hcnone
    subst hcnone
    obtain ⟨n, hn⟩ := List.mem_iff_get?.mp hc
    have hmem : n ∈ getAvailableMoves board := (mem_getAvailableMoves board n).mpr hn
    rw [h] at hmem
    exact List.not_mem_nil n hmem
  · intro h
    by_contra hne
    obtain ⟨i, hi⟩ := List.exists_mem_of_ne_nil _ hne
    have hget := (mem_getAvailableMoves board i).mp hi
    have hmem : (none : Cell) ∈ board := List.mem_iff_get?.mpr ⟨i, hget⟩
    exact h none hmem rfl

lemma isBoardFull_iff (board : List Cell) :
    isBoardFull board = true ↔ ∀ c ∈ board, c ≠ none := by
  unfold isBoardFull
  rw [List.all_eq_true]
  constructor
  · intro h c hc
    exact Option.isSome_iff_ne_none.mp (h c hc)
  · intro h c hc
    exact Option.isSome_iff_ne_none.mpr (h c hc)

lemma completeMove_eq_some_imp (board : List Cell) (m : Mark) (t : Nat × Nat × Nat)
    (i : Nat) (h : completeMove board m t = some i) : completesTriple board m t i := by
  rcases t with ⟨a, b, c⟩
  unfold completeMove at h
  unfold completesTriple
  dsimp only at h ⊢
  split_ifs at h with h1 h2 h3
  · cases h
    exact Or.inl ⟨h1.1, h1.2.1, h1.2.2, rfl⟩
  · cases h
    exact Or.inr (Or.inl ⟨h2.1, h2.2.1, h2.2.2, rfl⟩)
  · cases h
    exact Or.inr (Or.inr ⟨h3.1, h3.2.1, h3.2.2, rfl⟩)

lemma completeMove_eq_none_imp (board : List Cell) (m : Mark) (t : Nat × Nat × Nat)
    (h : completeMove board m t = none) : ∀ i, ¬ completesTriple board m t i := by
  rcases t with ⟨a, b, c⟩
  unfold completeMove at h
  unfold completesTriple
  dsimp only at h ⊢
  split_ifs at h with h1 h2 h3
  intro i hi
  rcases hi with ⟨ha, hb, hc, rfl⟩ | ⟨ha, hc2, hb2, rfl⟩ | ⟨hb3, hc3, ha3, rfl⟩
  · exact h1 ⟨ha, hb, hc⟩
  · exact h2 ⟨ha, hc2, hb2⟩
  · exact h3 ⟨hb3, hc3, ha3⟩

lemma findCompletingMove_eq_some_imp (board : List Cell) (m : Mark) (i : Nat)
    (h : findCompletingMove board m = some i) :
    ∃ t ∈ winningCombinations, completesTriple board m t i := by
  obtain ⟨t, ht, hc⟩ := List.exists_of_findSome?_eq_some h
  exact ⟨t, ht, completeMove_eq_some_imp board m t i hc⟩

lemma findCompletingMove_eq_none_iff (board : List Cell) (m : Mark) :
    findCompletingMove board m = none ↔ ¬ canComplete board m := by
  unfold findCompletingMove canComplete
  rw [List.findSome?_eq_none_iff]
  constructor
  · rintro h ⟨t, ht, i, hi⟩
    exact completeMove_eq_none_imp board m t (h t ht) i hi
  · intro h t ht
    rcases hc : completeMove board m t with _ | i
    · rfl
    · exact absurd ⟨t, ht, i, completeMove_eq_some_imp board m t i hc⟩ h

lemma winningCombinations_bounds :
    ∀ t ∈ winningCombinations, t.1 < 9 ∧ t.2.1 < 9 ∧ t.2.2 < 9 := by decide

lemma getD_none_get? (board : List Cell) (i : Nat) (hi : i < board.length)
    (h : board.getD i none = none) : board.get? i = some none := by
  rw [List.getD_eq_getElem board none hi] at h
  rw [List.get?_eq_getElem?, List.getElem?_eq_getElem hi, h]

lemma playMoves_nil (s : GameState) : playMoves s [] = s := rfl

lemma playMoves_cons (s : GameState) (i : Nat) (moves : List Nat) :
    playMoves s (i :: moves) = playMoves (handleCellClick s i) moves := rfl

lemma playMoves_append (s : GameState) (l₁ l₂ : List Nat) :
    playMoves s (l₁ ++ l₂) = playMoves (playMoves s l₁) l₂ :=
  List.foldl_append _ _ _ _

lemma flipIter_zero (p : Cell) : flipIter 0 p = p := rfl

lemma flipIter_succ (k : Nat) (p : Cell) : flipIter (k + 1) p = flipIter k (flipPlayer p) := rfl

lemma flipPlayer_x : flipPlayer (some Mark.X) = some Mark.O := by decide

lemma flipPlayer_o : flipPlayer (some Mark.O) = some Mark.X := by decide

lemma flipIter_x (k : Nat) :
    flipIter k (some Mark.X) =
        (if k % 2 = 0 then some Mark.X else some Mark.O) ∧
      flipIter k (some Mark.O) =
        (if k % 2 = 0 then some Mark.O else some Mark.X) := by
  induction k with
  | zero => exact ⟨rfl, rfl⟩
  | succ n ih =>
    obtain ⟨ihx, iho⟩ := ih
    rcases Nat.even_or_odd n with he | hodd
    · have h2 : n % 2 = 0 := Nat.even_iff.mp he
      have h2' : (n + 1) % 2 = 1 := by omega
      constructor
      · rw [flipIter_succ, flipPlayer_x, iho, h2, h2']
        simp
      · rw [flipIter_succ, flipPlayer_o, ihx, h2, h2']
        simp
    · have h2 : n % 2 = 1 := Nat.odd_iff.mp hodd
      have h2' : (n + 1) % 2 = 0 := by omega
      constructor
      · rw [flipIter_succ, flipPlayer_x, iho, h2, h2']
        simp
      · rw [flipIter_succ, flipPlayer_o, ihx, h2, h2']
        simp

lemma handleCellClick_currentPlayer_of_accepted (s : GameState) (i : Nat)
    (h : acceptedMove s i) :
    (handleCellClick s i).currentPlayer = flipPlayer s.currentPlayer := by
  rw [handleCellClick_of_accepted s i h]
  rfl

lemma playMoves_take_currentPlayer :
    ∀ (moves : List Nat) (s : GameState) (k : Nat),
      acceptedSeq s moves → k ≤ moves.length →
      (playMoves s (moves.take k)).currentPlayer = flipIter k s.currentPlayer
  | _, s, 0, _, _ => by simp [playMoves_nil, flipIter_zero]
  | [], _, k + 1, _, hk => absurd hk (by simp)
  | i :: moves, s, k + 1, hacc, hk => by
    obtain ⟨h1, h2⟩ := hacc
    rw [List.take_succ_cons, playMoves_cons,
      playMoves_take_currentPlayer moves (handleCellClick s i) k h2
        (by simpa using hk)]
    rw [handleCellClick_currentPlayer_of_accepted s i h1, flipIter_succ]

lemma acceptedSeq_step :
    ∀ (moves : List Nat) (s : GameState) (k : Nat) (hk : k < moves.length),
      acceptedSeq s moves →
      acceptedMove (playMoves s (moves.take k)) (moves.get ⟨k, hk⟩)
  | [], _, k, hk, _ => absurd hk (by simp)
  | i :: moves, s, 0, _, hacc => by
    obtain ⟨h1, _⟩ := hacc
    simpa [playMoves_nil] using h1
  | i :: moves, s, k + 1, hk, hacc => by
    obtain ⟨_, h2⟩ := hacc
    rw [List.take_succ_cons, playMoves_cons]
    exact acceptedSeq_step moves (handleCellClick s i) k (by simpa using hk) h2

lemma playMoves_take_succ (s : GameState) (moves : List Nat) (k : Nat)
    (hk : k < moves.length) :
    playMoves s (moves.take (k + 1)) =
      handleCellClick (playMoves s (moves.take k)) (moves.get ⟨k, hk⟩) := by
  rw [List.take_succ]
  rw [List.getElem?_eq_getElem hk]
  rw [playMoves_append]
  rfl

/-! ### Claim theorems -/

/-- C1: for every in-progress session and accepted move (target cell
empty and in range), the current mark is placed at the cell, and the
resulting status is Won with the winner recorded and that mark's score
counter incremented when the new board has a winning triple; else Drawn
with the draw counter incremented when the new board is full; else
still InProgress; no other score counter changes in any case. -/
theorem claim_C1_accepted_move_outcome (s : GameState) (i : Nat) (h : acceptedMove s i) :
    (handleCellClick s i).board = s.board.set i s.currentPlayer ∧
    (∀ m, checkWinner (s.board.set i s.currentPlayer) = some m →
      (handleCellClick s i).gameStatus = GameStatus.won ∧
      (handleCellClick s i).winner = some m ∧
      (m = Mark.X → (handleCellClick s i).score.x = s.score.x + 1 ∧
        (handleCellClick s i).score.o = s.score.o ∧
        (handleCellClick s i).score.draws = s.score.draws) ∧
      (m = Mark.O → (handleCellClick s i).score.o = s.score.o + 1 ∧
        (handleCellClick s i).score.x = s.score.x ∧
        (handleCellClick s i).score.draws = s.score.draws)) ∧
    (checkWinner (s.board.set i s.currentPlayer) = none →
      isBoardFull (s.board.set i s.currentPlayer) = true →
      (handleCellClick s i).gameStatus = GameStatus.draw ∧
      (handleCellClick s i).score.draws = s.score.draws + 1 ∧
      (handleCellClick s i).score.x = s.score.x ∧
      (handleCellClick s i).score.o = s.score.o) ∧
    (checkWinner (s.board.set i s.currentPlayer) = none →
      isBoardFull (s.board.set i s.currentPlayer) = false →
      (handleCellClick s i).gameStatus = GameStatus.playing ∧
      (handleCellClick s i).score = s.score) := by
  rw [handleCellClick_of_accepted s i h]
  refine ⟨applyMove_board s i, ?_, ?_, ?_⟩
  · intro m hw
    obtain ⟨hst, hwin, hsc⟩ := applyMove_won s i m hw
    refine ⟨hst, hwin, ?_, ?_⟩
    · rintro rfl
      rw [hsc]
      exact ⟨rfl, rfl, rfl⟩
    · rintro rfl
      rw [hsc]
      exact ⟨rfl, rfl, rfl⟩
  · intro hw hf
    obtain ⟨hst, -, hsc⟩ := applyMove_draw s i hw hf
    rw [hsc]
    exact ⟨hst, rfl, rfl, rfl⟩
  · intro hw hf
    obtain ⟨hst, -, hsc⟩ := applyMove_playing s i hw hf
    exact ⟨hst, hsc⟩

/-- Witness for C1: from `nearWinState`, X playing cell 2 completes the
top row, the status becomes Won, the winner is X and X's counter is
incremented. -/
theorem claim_C1_witness :
    (handleCellClick nearWinState 2).gameStatus = GameStatus.won ∧
      (handleCellClick nearWinState 2).winner = some Mark.X ∧
      (handleCellClick nearWinState 2).score.x = nearWinState.score.x + 1 := by
  have h := claim_C1_accepted_move_outcome nearWinState 2 (by decide)
  have hw : checkWinner (nearWinState.board.set 2 nearWinState.currentPlayer) =
      some Mark.X := by decide
  obtain ⟨-, hwon, -, -⟩ := h
  obtain ⟨hst, hwin, hx, -⟩ := hwon Mark.X hw
  exact ⟨hst, hwin, (hx rfl).1⟩

/-- C2: `checkWinner` returns a mark only when that mark owns a full
triple, returns `none` exactly when no triple is fully owned (in
particular on the empty board), and returns the owner of the first
fully-matched triple in the fixed scan order. -/
theorem claim_C2_checkWinner_spec (board : List Cell) :
    (∀ m, checkWinner board = some m →
      ∃ t ∈ winningCombinations, ownsTriple board t m) ∧
    (checkWinner board = none ↔
      ∀ t ∈ winningCombinations, ∀ m, ¬ ownsTriple board t m) ∧
    (∀ l₁ t l₂ m, winningCombinations = l₁ ++ t :: l₂ →
      (∀ t' ∈ l₁, ∀ m', ¬ ownsTriple board t' m') → ownsTriple board t m →
      checkWinner board = some m) ∧
    checkWinner (List.replicate 9 none) = none := by
  refine ⟨fun m => checkWinner_eq_some_imp board m, checkWinner_eq_none_iff board,
    ?_, by decide⟩
  intro l₁ t l₂ m hs hb ho
  exact checkWinner_first_match board l₁ l₂ t m hs hb ho

/-- Witness for C2: on a board where both X and O own a full row, the
winner returned is X, whose row comes first in scan order. -/
theorem claim_C2_witness :
    (∃ t ∈ winningCombinations, ownsTriple doubleRowBoard t Mark.X) ∧
      checkWinner doubleRowBoard = some Mark.X := by
  refine ⟨(claim_C2_checkWinner_spec doubleRowBoard).1 Mark.X (by decide), ?_⟩
  exact (claim_C2_checkWinner_spec doubleRowBoard).2.2.1 []
    (0, 1, 2) [(3, 4, 5), (6, 7, 8), (0, 3, 6), (1, 4, 7), (2, 5, 8), (0, 4, 8), (2, 4, 6)]
    Mark.X rfl (fun t' ht' _ _ => absurd ht' (List.not_mem_nil t')) (by decide)

/-- C3: a move event on an occupied cell, on a finished session, or
with an out-of-range index leaves the whole session state (board,
status, winner, turn, score, mode) unchanged. -/
theorem claim_C3_invalid_move_noop (s : GameState) (i : Nat)
    (hlen : s.board.length = 9)
    (h : (∃ m, s.board.get? i = some (some m)) ∨
      s.gameStatus ≠ GameStatus.playing ∨ 9 ≤ i) :
    handleCellClick s i = s := by
  apply handleCellClick_of_not_accepted
  rintro ⟨hcell, hstatus⟩
  rcases h with ⟨m, hm⟩ | h | h
  · rw [hcell] at hm
    simp at hm
  · exact h hstatus
  · rw [List.get?_eq_none.mpr (by omega)] at hcell
    exact Option.noConfusion hcell

/-- Witness for C3: clicking occupied cell 0 of `nearWinState` is a
no-op. -/
theorem claim_C3_witness : handleCellClick nearWinState 0 = nearWinState :=
  claim_C3_invalid_move_noop nearWinState 0 (by decide)
    (Or.inl ⟨Mark.X, by decide⟩)

/-- C6 counterexample: from `nearWinState`, X's winning move on cell 2
transitions the session to Won, yet whose-turn still changes — the
claim that a Won/Drawn transition leaves whose-turn unchanged is false. -/
theorem claim_C6_counterexample :
    (handleCellClick nearWinState 2).gameStatus = GameStatus.won ∧
      (handleCellClick nearWinState 2).currentPlayer ≠ nearWinState.currentPlayer := by
  decide

/-- C6 amended: on every accepted move event whose-turn is flipped
unconditionally, including moves that transition the session to Won or
Drawn. -/
theorem claim_C6_amended_turn_always_flips (s : GameState) (i : Nat)
    (h : acceptedMove s i) :
    (handleCellClick s i).currentPlayer = flipPlayer s.currentPlayer :=
  handleCellClick_currentPlayer_of_accepted s i h

/-- Witness for amended C6: X's winning move still flips the turn. -/
theorem claim_C6_amended_witness :
    (handleCellClick nearWinState 2).currentPlayer =
      flipPlayer nearWinState.currentPlayer :=
  claim_C6_amended_turn_always_flips nearWinState 2 (by decide)

/-- C8: `isBoardFull` is true iff `getAvailableMoves` is empty, iff no
cell of the board is empty. -/
theorem claim_C8_isFull_iff_no_empty (board : List Cell) :
    (isBoardFull board = true ↔ getAvailableMoves board = []) ∧
      (isBoardFull board = true ↔ ∀ c ∈ board, c ≠ none) := by
  constructor
  · rw [isBoardFull_iff, getAvailableMoves_eq_nil_iff]
  · exact isBoardFull_iff board

/-- C10: a reset-score event zeroes the three counters and leaves
board, status, winner, turn and mode unchanged. -/
theorem claim_C10_resetScore_spec (s : GameState) :
    (resetScore s).score.x = 0 ∧ (resetScore s).score.o = 0 ∧
      (resetScore s).score.draws = 0 ∧ (resetScore s).board = s.board ∧
      (resetScore s).gameStatus = s.gameStatus ∧
      (resetScore s).winner = s.winner ∧
      (resetScore s).currentPlayer = s.currentPlayer ∧
      (resetScore s).gameMode = s.gameMode :=
  ⟨rfl, rfl, rfl, rfl, rfl, rfl, rfl, rfl⟩

/-- C4: when O can complete a triple, `getComputerMove` returns an
index completing an O triple (never one completing only X's triple);
when O cannot but X can, it returns an index completing (blocking) an X
triple; and any index produced by the win tier completes an O triple. -/
theorem claim_C4_win_then_block (board : List Cell) (r1 r2 : Nat) :
    (canComplete board Mark.O →
      ∃ t ∈ winningCombinations,
        completesTriple board Mark.O t (getComputerMove board r1 r2)) ∧
    (¬ canComplete board Mark.O → canComplete board Mark.X →
      ∃ t ∈ winningCombinations,
        completesTriple board Mark.X t (getComputerMove board r1 r2)) ∧
    (∀ i, findCompletingMove board Mark.O = some i →
      ∃ t ∈ winningCombinations, completesTriple board Mark.O t i) := by
  refine ⟨?_, ?_, fun i h => findCompletingMove_eq_some_imp board Mark.O i h⟩
  · intro hcan
    rcases hO : findCompletingMove board Mark.O with _ | i
    · exact absurd ((findCompletingMove_eq_none_iff board Mark.O).mp hO)
        (not_not_intro hcan)
    · have hg : getComputerMove board r1 r2 = i := by
        unfold getComputerMove
        rw [hO]
      rw [hg]
      exact findCompletingMove_eq_some_imp board Mark.O i hO
  · intro hnot hcanX
    have hO : findCompletingMove board Mark.O = none :=
      (findCompletingMove_eq_none_iff board Mark.O).mpr hnot
    rcases hX : findCompletingMove board Mark.X with _ | i
    · exact absurd ((findCompletingMove_eq_none_iff board Mark.X).mp hX)
        (not_not_intro hcanX)
    · have hg : getComputerMove board r1 r2 = i := by
        unfold getComputerMove
        rw [hO, hX]
      rw [hg]
      exact findCompletingMove_eq_some_imp board Mark.X i hX

/-- Witness for C4: on the spec's block scenario (X on 0 and 1, cell 2
empty, O only in the center) O has no win, so the move returned blocks
X's triple. -/
theorem claim_C4_witness :
    ∃ t ∈ winningCombinations,
      completesTriple blockScenarioBoard Mark.X t
        (getComputerMove blockScenarioBoard 0 0) :=
  (claim_C4_win_then_block blockScenarioBoard 0 0).2.1 (by decide) (by decide)

/-- C5: on any 9-cell board with at least one empty cell, the index
returned by `getComputerMove` — whatever the random draws — is in
range and refers to an empty cell. -/
theorem claim_C5_move_in_range_and_empty (board : List Cell) (r1 r2 : Nat)
    (hlen : board.length = 9) (hne : ∃ c ∈ board, c = none) :
    getComputerMove board r1 r2 < 9 ∧
      board.get? (getComputerMove board r1 r2) = some none := by
  have hwin : ∀ (m : Mark) (i : Nat), findCompletingMove board m = some i →
      i < 9 ∧ board.get? i = some none := by
    intro m i hfind
    obtain ⟨t, ht, hc⟩ := findCompletingMove_eq_some_imp board m i hfind
    rcases t with ⟨a, b, c⟩
    obtain ⟨hb1, hb2, hb3⟩ := winningCombinations_bounds (a, b, c) ht
    dsimp only at hb1 hb2 hb3
    rcases hc with ⟨-, -, hcc, rfl⟩ | ⟨-, -, hcc, rfl⟩ | ⟨-, -, hcc, rfl⟩
    · exact ⟨hb3, getD_none_get? board _ (by omega) hcc⟩
    · exact ⟨hb2, getD_none_get? board _ (by omega) hcc⟩
    · exact ⟨hb1, getD_none_get? board _ (by omega) hcc⟩
  unfold getComputerMove
  rcases hO : findCompletingMove board Mark.O with _ | i
  · rcases hX : findCompletingMove board Mark.X with _ | i
    · simp only [hO, hX]
      by_cases hc4 : board.getD 4 none = none
      · simp only [if_pos hc4]
        exact ⟨by omega, getD_none_get? board 4 (by omega) hc4⟩
      · simp only [if_neg hc4]
        by_cases hlc :
            ([0, 2, 6, 8].filter (fun c => board.getD c none = none)).length > 0
        · simp only [if_pos hlc]
          have hlt : r1 % ([0, 2, 6, 8].filter
              (fun c => board.getD c none = none)).length <
              ([0, 2, 6, 8].filter (fun c => board.getD c none = none)).length :=
            Nat.mod_lt _ hlc
          have hmem : ([0, 2, 6, 8].filter
              (fun c => board.getD c none = none)).getD
                (r1 % ([0, 2, 6, 8].filter
                  (fun c => board.getD c none = none)).length) 9 ∈
              [0, 2, 6, 8].filter (fun c => board.getD c none = none) := by
            rw [List.getD_eq_getElem _ 9 hlt]
            exact List.getElem_mem hlt
          rw [List.mem_filter] at hmem
          obtain ⟨hmem4, hdec⟩ := hmem
          have hempty := of_decide_eq_true hdec
          have hlt9 : ([0, 2, 6, 8].filter
              (fun c => board.getD c none = none)).getD
                (r1 % ([0, 2, 6, 8].filter
                  (fun c => board.getD c none = none)).length) 9 < 9 := by
            simp only [List.mem_cons, List.mem_nil_iff, or_false] at hmem4
            rcases hmem4 with h | h | h | h <;> omega
          exact ⟨hlt9, getD_none_get? board _ (by omega) hempty⟩
        · simp only [if_neg hlc]
          obtain ⟨c, hcmem, hcnone⟩ := hne
          subst hcnone
          obtain ⟨n, hn⟩ := List.mem_iff_get?.mp hcmem
          have hnmem : n ∈ getAvailableMoves board :=
            (mem_getAvailableMoves board n).mpr hn
          have hpos : 0 < (getAvailableMoves board).length :=
            List.length_pos.mpr (List.ne_nil_of_mem hnmem)
          have hlt : r2 % (getAvailableMoves board).length <
              (getAvailableMoves board).length := Nat.mod_lt _ hpos
          have hmem : (getAvailableMoves board).getD
              (r2 % (getAvailableMoves board).length) 9 ∈
                getAvailableMoves board := by
            rw [List.getD_eq_getElem _ 9 hlt]
            exact List.getElem_mem hlt
          have hget := (mem_getAvailableMoves board _).mp hmem
          obtain ⟨hlt9, -⟩ := List.get?_eq_some.mp hget
          exact ⟨by omega, hget⟩
    · simp only [hO, hX]
      exact hwin Mark.X i hX
  · simp only [hO]
    exact hwin Mark.O i hO

/-- Witness for C5: on the empty board the move returned (the center)
is in range and empty. -/
theorem claim_C5_witness :
    getComputerMove emptyBoard 0 0 < 9 ∧
      emptyBoard.get? (getComputerMove emptyBoard 0 0) = some none :=
  claim_C5_move_in_range_and_empty emptyBoard 0 0 (by decide)
    ⟨none, by decide, rfl⟩

/-- C7: along any sequence of accepted move events from a fresh
session, the mark placed at the k-th event (0-based) is X for even k
and O for odd k: whose-turn before the event is that mark, and the
event writes exactly that mark at its cell. -/
theorem claim_C7_turn_alternation (moves : List Nat)
    (h : acceptedSeq initialState moves) (k : Nat) (hk : k < moves.length) :
    (playMoves initialState (moves.take k)).currentPlayer =
        (if k % 2 = 0 then some Mark.X else some Mark.O) ∧
      (playMoves initialState (moves.take (k + 1))).board =
        (playMoves initialState (moves.take k)).board.set (moves.get ⟨k, hk⟩)
          (if k % 2 = 0 then some Mark.X else some Mark.O) := by
  have hcp : (playMoves initialState (moves.take k)).currentPlayer =
      flipIter k (some Mark.X) :=
    playMoves_take_currentPlayer moves initialState k h (le_of_lt hk)
  have hcp' : (playMoves initialState (moves.take k)).currentPlayer =
      (if k % 2 = 0 then some Mark.X else some Mark.O) := by
    rw [hcp]
    exact (flipIter_x k).1
  refine ⟨hcp', ?_⟩
  have hstep := playMoves_take_succ initialState moves k hk
  have hacc := acceptedSeq_step moves initialState k hk h
  rw [hstep, handleCellClick_of_accepted _ _ hacc, applyMove_board, hcp']

/-- Witness for C7: after the accepted events 0, 1, 2 from a fresh
session, the mark placed at event 1 is O. -/
theorem claim_C7_witness :
    (playMoves initialState (List.take 1 [0, 1, 2])).currentPlayer =
      (if 1 % 2 = 0 then some Mark.X else some Mark.O) :=
  (claim_C7_turn_alternation [0, 1, 2] (by decide) 1 (by decide)).1

/-- C9 counterexample: the spec's scenario sequence does NOT end Drawn
with one draw counted — it is refuted on the code. -/
theorem claim_C9_counterexample :
    ¬ ((playMoves initialState drawScenarioMoves).gameStatus = GameStatus.draw ∧
      (playMoves initialState drawScenarioMoves).score.draws = 1) := by
  decide

/-- C9 amended: the sequence 0(A) 1(B) 2(A) 4(B) 3(A) 5(B) 6(A) 8(B)
7(A) completes A's column (0, 3, 6) at the 7th event, so the session
ends Won with winner A and score.a = 1, score.draws = 0; the last two
events are rejected no-ops. -/
theorem claim_C9_amended :
    (playMoves initialState (drawScenarioMoves.take 7)).gameStatus =
        GameStatus.won ∧
      (playMoves initialState (drawScenarioMoves.take 7)).winner = some Mark.X ∧
      ownsTriple (playMoves initialState (drawScenarioMoves.take 7)).board
        (0, 3, 6) Mark.X ∧
      playMoves initialState drawScenarioMoves =
        playMoves initialState (drawScenarioMoves.take 7) ∧
      (playMoves initialState drawScenarioMoves).score.x = 1 ∧
      (playMoves initialState drawScenarioMoves).score.draws = 0 := by
  decide

end TicTacToe
